import Mathlib

/-!
Verification development for a Polymarket price-alert bot
(single module `main.py`).

The embedding is shallow: Python strings are modelled as `List Char`
(with `String` wrappers at boundaries), JSON values as a `Json`
inductive, Python exceptions as `Except PyErr`, SQLite rows as a
`List Alert` threaded through the functions that use the database,
and each outbound network call as a value of `HttpOutcome` supplied
by an `Env` record (one entry per external service).  Prices are
modelled as rationals.
-/

namespace PolyBot

/-! ### Python string primitives -/

def digitVal (c : Char) : Nat := c.toNat - 48

/-- Numeric value of a list of decimal digit characters. -/
def natVal (l : List Char) : Nat := l.foldl (fun n c => n * 10 + digitVal c) 0

/-- Drop leading characters satisfying `p` (one side of Python `str.strip`). -/
def dropLead (p : Char → Bool) : List Char → List Char
  | [] => []
  | c :: cs => if p c then dropLead p cs else c :: cs

/-- Python `str.strip` with the character class `p`: drop matching
characters from both ends. -/
def stripAllP (p : Char → Bool) (l : List Char) : List Char :=
  (dropLead p (dropLead p l).reverse).reverse

/-- Python `str.strip()` (whitespace). -/
def stripWs (l : List Char) : List Char := stripAllP Char.isWhitespace l

/-- Python `str.split(sep)` for a one-character separator class `p`:
splits at every matching character, keeping empty pieces.  The result is
never empty (`"".split(sep) == [""]`). -/
def splitP (p : Char → Bool) : List Char → List (List Char)
  | [] => [[]]
  | c :: cs =>
    if p c then [] :: splitP p cs
    else
      match splitP p cs with
      | s :: ss => (c :: s) :: ss
      | [] => [[c]]

/-- Python `str.split()` with no separator: split on whitespace runs,
dropping empty pieces. -/
def pySplitWs (l : List Char) : List (List Char) :=
  (splitP Char.isWhitespace l).filter (fun s => !s.isEmpty)

/-- Python `str.lower`, covering the ASCII and Russian-alphabet letters
that the source compares against. -/
def pyLowerChar (c : Char) : Char :=
  if 'A' ≤ c ∧ c ≤ 'Z' then Char.ofNat (c.toNat + 32)
  else if 'А' ≤ c ∧ c ≤ 'Я' then Char.ofNat (c.toNat + 32)
  else if c = 'Ё' then 'ё'
  else c

def pyLower (l : List Char) : List Char := l.map pyLowerChar

/-- Digit run for Python `int`: the whole remaining input must be decimal
digits, with single underscores allowed between digits. -/
def intDigitsAux (acc : Nat) : List Char → Option Nat
  | [] => some acc
  | c :: rest =>
    if c.isDigit then intDigitsAux (acc * 10 + digitVal c) rest
    else if c = '_' then
      match rest with
      | [] => none
      | c2 :: rest2 =>
        if c2.isDigit then intDigitsAux (acc * 10 + digitVal c2) rest2 else none
    else none

def intDigits : List Char → Option Nat
  | [] => none
  | c :: rest => if c.isDigit then intDigitsAux (digitVal c) rest else none

/-- Python `int(str)`: optional surrounding whitespace, optional sign,
then a digit run.  (ASCII digits; the exotic Unicode digit classes are
out of scope of the model.) -/
def pyInt (l : List Char) : Option Int :=
  match stripWs l with
  | '+' :: rest => (intDigits rest).map (fun n => (n : Int))
  | '-' :: rest => (intDigits rest).map (fun n => -(n : Int))
  | rest => (intDigits rest).map (fun n => (n : Int))

/-- Maximal digit run for Python `float`: stops at the first character
that is not a digit (underscores allowed between digits); returns the
digits read and the remaining input.  The first character must be a
digit. -/
def floatDigitsAux (acc : List Char) : List Char → Option (List Char × List Char)
  | [] => some (acc.reverse, [])
  | c :: rest =>
    if c.isDigit then floatDigitsAux (c :: acc) rest
    else if c = '_' then
      match rest with
      | [] => none
      | c2 :: rest2 =>
        if c2.isDigit then floatDigitsAux (c2 :: acc) rest2 else none
    else some (acc.reverse, c :: rest)

def floatDigits : List Char → Option (List Char × List Char)
  | [] => none
  | c :: rest => if c.isDigit then floatDigitsAux [c] rest else none

/-- Mantissa of a Python float literal, `digits [. [digits]] | . digits`,
returned as the combined digit value together with the number of
fractional digits. -/
def parseMantissa (l : List Char) : Option ((Nat × Nat) × List Char) :=
  match l with
  | '.' :: rest =>
    match floatDigits rest with
    | none => none
    | some (ds, r) => some ((natVal ds, ds.length), r)
  | _ =>
    match floatDigits l with
    | none => none
    | some (ds, r) =>
      match r with
      | '.' :: r2 =>
        match floatDigits r2 with
        | none => some ((natVal ds, 0), r2)
        | some (fs, r3) =>
          some ((natVal ds * 10 ^ fs.length + natVal fs, fs.length), r3)
      | _ => some ((natVal ds, 0), r)

/-- The exact rational `±m · 10^(e−f)` of a parsed decimal literal. -/
def decVal (neg : Bool) (m f : Nat) (e : Int) : ℚ :=
  let sm : Int := if neg then -(m : Int) else (m : Int)
  let k : Int := e - (f : Int)
  if 0 ≤ k then mkRat (sm * 10 ^ k.toNat) 1 else mkRat sm (10 ^ (-k).toNat)

/-- Exponent suffix of a Python float literal; the rest of the input must
be consumed. -/
def parseExp (l : List Char) : Option Int :=
  match l with
  | [] => some 0
  | c :: rest =>
    if c = 'e' ∨ c = 'E' then
      match rest with
      | '+' :: r2 => (intDigits r2).map (fun n => (n : Int))
      | '-' :: r2 => (intDigits r2).map (fun n => -(n : Int))
      | r2 => (intDigits r2).map (fun n => (n : Int))
    else none

/-- Python `float(str)` for finite decimal literals: optional surrounding
whitespace, optional sign, mantissa, optional exponent.  (The `inf`/`nan`
spellings are outside the rational model.) -/
def pyFloat (l : List Char) : Option ℚ :=
  let core : Bool → List Char → Option ℚ := fun neg t =>
    match parseMantissa t with
    | none => none
    | some ((m, f), r) =>
      match parseExp r with
      | none => none
      | some e => some (decVal neg m f e)
  match stripWs l with
  | '+' :: rest => core false rest
  | '-' :: rest => core true rest
  | rest => core false rest

/-- Python `str.replace(",", "")`. -/
def removeCommas (l : List Char) : List Char := l.filter (fun c => !(c == ','))

/-- Python `str.replace(",", ".")`. -/
def commaToDot (l : List Char) : List Char :=
  l.map (fun c => if c = ',' then '.' else c)

/-! ### JSON data and Python exceptions -/

inductive Json where
  | null
  | bool (b : Bool)
  | num (q : ℚ)
  | str (s : String)
  | arr (xs : List Json)
  | obj (kvs : List (String × Json))

/-- Python truthiness of a JSON value. -/
def jtruthy : Json → Bool
  | .null => false
  | .bool b => b
  | .num q => !(q == 0)
  | .str s => !(s == "")
  | .arr xs => !xs.isEmpty
  | .obj kvs => !kvs.isEmpty

/-- Python truthiness, with `none` standing for Python `None`. -/
def jtruthyOpt : Option Json → Bool
  | none => false
  | some j => jtruthy j

def jIsObj : Json → Bool
  | .obj _ => true
  | _ => false

/-- Python `str(...)` of a JSON value.  String payloads are returned
verbatim (the only case the source exercises: token ids are strings);
scalars follow Python's spelling and containers are abbreviated. -/
def pyStr : Json → String
  | .null => "None"
  | .bool b => if b then "True" else "False"
  | .num q => if q.den = 1 then toString q.num else toString q
  | .str s => s
  | .arr _ => "[…]"
  | .obj _ => "\x7b…\x7d"

/-- Modelled Python exceptions that can escape the translated functions. -/
inductive PyErr where
  | requestError
  | httpStatusError
  | jsonDecodeError
  | typeError
  | attributeError
  | keyError
  deriving DecidableEq

/-- Python `d.get(k)` on a JSON value known to be used as a dict:
`none` when the key is absent; an `AttributeError` when the value is not
a dict at all. -/
def Json.pyGet : Json → String → Except PyErr (Option Json)
  | .obj kvs, k => .ok ((kvs.find? (fun kv => kv.1 == k)).map (fun kv => kv.2))
  | _, _ => .error .attributeError

/-! ### MarketReferenceParser: `extract_event_slug` (main.py:109-123)

The function calls `urllib.parse.urlparse(market_url).path`; the path
component is modelled by `pyUrlparsePath` below, following CPython's
`urlsplit` (unsafe-byte removal, scheme, netloc with the bracket
`ValueError`, fragment, query) and `urlparse`'s params split.  A raised
`ValueError` is modelled as `none` (the source catches it and returns
`None`). -/

def schemeChar (c : Char) : Bool :=
  c.isAlpha || c.isDigit || c == '+' || c == '-' || c == '.'

def urlDelim (c : Char) : Bool := c == '/' || c == '?' || c == '#'

/-- Strip a leading `scheme:` if the prefix before the first `:` is a
valid scheme token. -/
def dropScheme (cs : List Char) : List Char :=
  match cs.findIdx? (fun c => c = ':') with
  | some i =>
    if 0 < i ∧ (cs.headD ' ').isAlpha ∧ (cs.take i).all schemeChar
    then cs.drop (i + 1) else cs
  | none => cs

/-- After removing the netloc: drop the fragment (everything after the
first `#`), then the query (everything after the first `?`). -/
def dropFragmentQuery (cs : List Char) : List Char :=
  (cs.takeWhile (fun c => c ≠ '#')).takeWhile (fun c => c ≠ '?')

/-- `urlparse`'s params split: cut the path at the first `;` occurring in
its last `/`-separated segment. -/
def splitParams (cs : List Char) : List Char :=
  if ';' ∈ cs then
    if '/' ∈ cs then
      let tailSeg := (cs.reverse.takeWhile (fun c => c ≠ '/')).reverse
      cs.take (cs.length - tailSeg.length) ++ tailSeg.takeWhile (fun c => c ≠ ';')
    else cs.takeWhile (fun c => c ≠ ';')
  else cs

/-- The `path` component of `urllib.parse.urlparse`, or `none` when
`urlparse` raises `ValueError` (mismatched brackets in the netloc).
Leading C0-control-or-space characters are stripped and tab/CR/LF are
removed everywhere, as in CPython's `urlsplit`.  (The bracketed-host and
netloc NFKC validations, which only reject exotic host spellings, are
not modelled.) -/
def pyUrlparsePath (url : String) : Option String :=
  let cs := dropLead (fun c => c.toNat ≤ 32) url.toList
  let cs := cs.filter (fun c => !(c == '\t' || c == '\r' || c == '\n'))
  let cs := dropScheme cs
  match cs with
  | '/' :: '/' :: rest =>
    let netloc := rest.takeWhile (fun c => !urlDelim c)
    let after := rest.dropWhile (fun c => !urlDelim c)
    if ('[' ∈ netloc ∧ ']' ∉ netloc) ∨ (']' ∈ netloc ∧ '[' ∉ netloc) then none
    else some (String.mk (splitParams (dropFragmentQuery after)))
  | _ => some (String.mk (splitParams (dropFragmentQuery cs)))

/-- The `parts` list of `extract_event_slug`:
`parsed.path.strip("/").split("/")`. -/
def pathParts (path : String) : List (List Char) :=
  splitP (fun c => c == '/') (stripAllP (fun c => c == '/') path.toList)

/-- `extract_event_slug` (main.py:109-123). -/
def extract_event_slug (url : String) : Option String :=
  match pyUrlparsePath url with
  | none => none
  | some path =>
    let parts := pathParts path
    if 2 ≤ parts.length ∧ parts.headD [] = "event".toList
    then some (String.mk (parts.getD 1 []))
    else none

/-! ### Network environment -/

/-- The observable outcome of one outbound HTTP request. -/
inductive HttpOutcome where
  | netError
  | response (status : Nat) (body : Option Json)

/-- External collaborators of the core, one entry per service:
the metadata service response for a slug, the price service response
for a token id, `json.loads`, and whether `bot.send_message` to a user
succeeds. -/
structure Env where
  eventHttp : String → HttpOutcome
  priceHttp : String → HttpOutcome
  jparse : String → Option Json
  sendOk : Nat → Bool

/-! ### MarketResolver: `fetch_event_by_slug` (main.py:126-149) -/

/-- The `events` value extracted from the decoded response body:
`data.get("events") or []` for a dict, the list itself for a list,
`[]` otherwise. -/
def eventsField (data : Json) : Json :=
  match data with
  | .obj kvs =>
    let v := (kvs.find? (fun kv => kv.1 == "events")).map (fun kv => kv.2)
    if jtruthyOpt v then v.getD Json.null else Json.arr []
  | .arr xs => .arr xs
  | _ => .arr []

/-- `fetch_event_by_slug` (main.py:126-149), as a function of the HTTP
outcome for the slug.  `raise_for_status()` raises on any non-2xx
status; a failed `resp.json()` decode raises; an empty result set
yields `None`; otherwise `events[0]` is returned. -/
def fetch_event_by_slug : HttpOutcome → Except PyErr (Option Json)
  | .netError => .error .requestError
  | .response status body =>
    if status < 200 ∨ 300 ≤ status then .error .httpStatusError
    else
      match body with
      | none => .error .jsonDecodeError
      | some data =>
        let events := eventsField data
        if jtruthy events then
          match events with
          | .arr (e :: _) => .ok (some e)
          | .str s => .ok (some (.str (String.mk (s.toList.take 1))))
          | _ => .error .typeError
        else .ok none

/-! ### MarketResolver: strike normalization and instrument selection -/

/-- `title.replace(",", "").strip()` followed by `int(...)`
(main.py:170-174 and main.py:211-215). -/
def normalizeLabel (title : String) : Option Int :=
  pyInt (stripWs (removeCommas title.toList))

/-- The normalized strike of one market dict:
`str(m.get("groupItemTitle") or "")` normalized; an `AttributeError`
when the market entry is not a dict. -/
def normTitle (m : Json) : Except PyErr (Option Int) :=
  match m.pyGet "groupItemTitle" with
  | .error e => .error e
  | .ok t =>
    let title := if jtruthyOpt t then pyStr (t.getD Json.null) else ""
    .ok (normalizeLabel title)

/-- The strike-scan loop of `strike_exists_in_event` (main.py:168-178):
`True` at the first market whose normalized label equals `strike`,
skipping labels that fail integer parsing. -/
def strikeLoop (strike : Int) : List Json → Except PyErr Bool
  | [] => .ok false
  | m :: rest =>
    match normTitle m with
    | .error e => .error e
    | .ok none => strikeLoop strike rest
    | .ok (some v) => if v = strike then .ok true else strikeLoop strike rest

/-- The strike-search loop of `pick_token_id_for_outcome`
(main.py:208-218): the first market whose normalized label equals
`strike`. -/
def findStrikeMarket (strike : Int) : List Json → Except PyErr (Option Json)
  | [] => .ok none
  | m :: rest =>
    match normTitle m with
    | .error e => .error e
    | .ok none => findStrikeMarket strike rest
    | .ok (some v) => if v = strike then .ok (some m) else findStrikeMarket strike rest

/-- Leading strike of an outcome string: `outcome.strip().split()`,
then `int(parts[0])` with the `ValueError` giving `None`
(main.py:192-199 and main.py:379-385). -/
def leadingStrike (s : String) : Option Int :=
  match pySplitWs (stripWs s.toList) with
  | [] => none
  | p :: _ => pyInt p

/-- Outcome parsing of `pick_token_id_for_outcome` (main.py:192-203):
the leading strike, and the YES/NO side (`True` by default, `False` when
a second token lowercases to a NO word). -/
def parseOutcome (outcome_str : String) : Option Int × Bool :=
  let parts := pySplitWs (stripWs outcome_str.toList)
  let strike := match parts with | [] => none | p :: _ => pyInt p
  let side_yes : Bool :=
    match parts with
    | _ :: s :: _ =>
      let low := String.mk (pyLower s)
      !(low == "no" || low == "нет" || low == "нету")
    | _ => true
  (strike, side_yes)

/-- `event.get("markets") or []` (main.py:164 and main.py:187). -/
def eventMarkets (event : Json) : Except PyErr Json :=
  match event.pyGet "markets" with
  | .error e => .error e
  | .ok v => .ok (if jtruthyOpt v then v.getD Json.null else Json.arr [])

/-- The `clobTokenIds` extraction of `pick_token_id_for_outcome`
(main.py:224-237): falsy raw value, a `json.loads` failure (including
the `TypeError` for a non-string raw value, caught by the bare
`except`), a non-list result, or fewer than two elements all give
`None`; otherwise the `(YES, NO)` pair `(ids[0], ids[1])`. -/
def tokenPair (jp : String → Option Json) (m : Json) :
    Except PyErr (Option (Json × Json)) :=
  match m.pyGet "clobTokenIds" with
  | .error e => .error e
  | .ok raw =>
    if jtruthyOpt raw then
      match raw.getD Json.null with
      | .str s =>
        match jp s with
        | some (.arr (y :: n :: _)) => .ok (some (y, n))
        | _ => .ok none
      | _ => .ok none
    else .ok none

/-- `pick_token_id_for_outcome` (main.py:181-238). -/
def pick_token_id_for_outcome (jp : String → Option Json) (event : Json)
    (outcome_str : String) : Except PyErr (Option String) :=
  match eventMarkets event with
  | .error e => .error e
  | .ok (Json.arr ms) =>
    if ms.isEmpty then .ok none
    else
      let po := parseOutcome outcome_str
      match po.1 with
      | none => .ok none
      | some strike =>
        match findStrikeMarket strike ms with
        | .error e => .error e
        | .ok none => .ok none
        | .ok (some m) =>
          match tokenPair jp m with
          | .error e => .error e
          | .ok none => .ok none
          | .ok (some (y, n)) => .ok (some (pyStr (if po.2 then y else n)))
  | .ok _ => .ok none

/-- `strike_exists_in_event` (main.py:152-178), as a function of the
environment (it performs the slug extraction and the event fetch
itself). -/
def strike_exists_in_event (env : Env) (market_url : String) (strike : Int) :
    Except PyErr Bool :=
  match extract_event_slug market_url with
  | none => .ok false
  | some slug =>
    if slug = "" then .ok false
    else
      match fetch_event_by_slug (env.eventHttp slug) with
      | .error e => .error e
      | .ok none => .ok false
      | .ok (some event) =>
        if jtruthy event then
          match eventMarkets event with
          | .error e => .error e
          | .ok (Json.arr ms) => strikeLoop strike ms
          | .ok _ => .ok false
        else .ok false

/-! ### PriceFetcher: `fetch_token_price` (main.py:241-259) -/

/-- `fetch_token_price` (main.py:241-259), as a function of the HTTP
outcome for the token.  A non-200 status yields `None` (no raise);
a missing or null `price` field yields `None`; a string price is parsed
with `float`, the `ValueError` giving `None`. -/
def fetch_token_price : HttpOutcome → Except PyErr (Option ℚ)
  | .netError => .error .requestError
  | .response status body =>
    if status ≠ 200 then .ok none
    else
      match body with
      | none => .error .jsonDecodeError
      | some data =>
        match data.pyGet "price" with
        | .error e => .error e
        | .ok none => .ok none
        | .ok (some Json.null) => .ok none
        | .ok (some (Json.str s)) => .ok (pyFloat s.toList)
        | .ok (some (Json.num q)) => .ok (some q)
        | .ok (some (Json.bool b)) => .ok (some (if b then 1 else 0))
        | .ok (some _) => .error .typeError

/-! ### AlertStore (main.py:31-100) -/

/-- One row of the `alerts` table. -/
structure Alert where
  id : Nat
  user_id : Nat
  market_url : String
  outcome : String
  target_price : ℚ
  direction : String
  active : Bool
  deriving DecidableEq

/-- `get_all_active_alerts` (main.py:90-100): `WHERE active = 1`. -/
def get_all_active_alerts (st : List Alert) : List Alert :=
  st.filter (fun a => a.active)

/-- `deactivate_alert` (main.py:76-87): `UPDATE alerts SET active = 0
WHERE id = ? AND user_id = ? AND active = 1`; the Boolean is
`rowcount > 0`. -/
def deactivate_alert (st : List Alert) (user_id alert_id : Nat) :
    List Alert × Bool :=
  (st.map (fun a =>
      if a.id = alert_id ∧ a.user_id = user_id ∧ a.active = true
      then { a with active := false } else a),
   decide (∃ a ∈ st, a.id = alert_id ∧ a.user_id = user_id ∧ a.active = true))

/-- The next `AUTOINCREMENT` id (no row is ever physically deleted). -/
def next_alert_id (st : List Alert) : Nat :=
  (st.map (fun a => a.id)).foldr max 0 + 1

/-- `add_alert` (main.py:50-59): inserts with `direction = '>='` and
`active = 1`. -/
def add_alert (st : List Alert) (user_id : Nat) (market_url outcome : String)
    (target_price : ℚ) : List Alert :=
  st ++ [{ id := next_alert_id st, user_id := user_id,
           market_url := market_url, outcome := outcome,
           target_price := target_price, direction := ">=", active := true }]

/-! ### PollingWorker: `alerts_worker` (main.py:421-490) -/

/-- The trigger evaluation (main.py:466-470). -/
def should_trigger (direction : String) (current_cents target_price_cents : ℚ) :
    Bool :=
  if direction = ">=" ∧ current_cents ≥ target_price_cents then true
  else if direction = "<=" ∧ current_cents ≤ target_price_cents then true
  else false

/-- What one alert's `try`-block decides before any store effect. -/
inductive StepOutcome where
  | skip
  | noTrigger
  | trigger (delivered : Bool)
  deriving DecidableEq

/-- The per-alert `try`-block of `alerts_worker` (main.py:439-486), up
to the decision: each `continue` is `.skip`, an uncaught exception of a
step propagates as `.error`, and a satisfied condition is `.trigger`
with the delivery outcome of `bot.send_message` (whose own failure is
caught and only logged). -/
def alerts_worker_body (env : Env) (a : Alert) : Except PyErr StepOutcome :=
  match extract_event_slug a.market_url with
  | none => .ok .skip
  | some slug =>
    if slug = "" then .ok .skip
    else
      match fetch_event_by_slug (env.eventHttp slug) with
      | .error e => .error e
      | .ok none => .ok .skip
      | .ok (some event) =>
        if jtruthy event then
          match pick_token_id_for_outcome env.jparse event a.outcome with
          | .error e => .error e
          | .ok none => .ok .skip
          | .ok (some token) =>
            if token = "" then .ok .skip
            else
              match fetch_token_price (env.priceHttp token) with
              | .error e => .error e
              | .ok none => .ok .skip
              | .ok (some price) =>
                if should_trigger a.direction (price * 100) a.target_price
                then .ok (.trigger (env.sendOk a.user_id))
                else .ok .noTrigger
        else .ok .skip

/-- The price observed for an alert when every step `a`-`d` of the cycle
succeeds (auxiliary view of the same pipeline). -/
def fetchedPrice (env : Env) (a : Alert) : Option ℚ :=
  match extract_event_slug a.market_url with
  | none => none
  | some slug =>
    if slug = "" then none
    else
      match fetch_event_by_slug (env.eventHttp slug) with
      | .error _ => none
      | .ok none => none
      | .ok (some event) =>
        if jtruthy event then
          match pick_token_id_for_outcome env.jparse event a.outcome with
          | .error _ => none
          | .ok none => none
          | .ok (some token) =>
            if token = "" then none
            else
              match fetch_token_price (env.priceHttp token) with
              | .error _ => none
              | .ok p => p
        else none

/-- A notification attempt (`bot.send_message` call) recorded by the
model. -/
structure Notif where
  user_id : Nat
  alert_id : Nat
  delivered : Bool
  deriving DecidableEq

/-- Processing of one alert inside the cycle: the `except` clause of the
`try`-block turns any error into a no-op; a trigger attempts the
notification and then deactivates the alert unconditionally
(main.py:472-488). -/
def worker_process_alert (env : Env) (st : List Alert) (a : Alert) :
    List Alert × Option Notif :=
  match alerts_worker_body env a with
  | .ok (.trigger d) =>
    ((deactivate_alert st a.user_id a.id).1, some ⟨a.user_id, a.id, d⟩)
  | _ => (st, none)

def worker_cycle_step (env : Env) (p : List Alert × List Notif) (a : Alert) :
    List Alert × List Notif :=
  let r := worker_process_alert env p.1 a
  (r.1, p.2 ++ r.2.toList)

/-- One cycle of `alerts_worker` (main.py:434-490): snapshot the active
alerts once, then process each in order, threading the store. -/
def alerts_worker_cycle (env : Env) (st : List Alert) :
    List Alert × List Notif :=
  (get_all_active_alerts st).foldl (worker_cycle_step env) (st, [])

/-- Iterated cycles, one environment per cycle. -/
def alerts_worker_cycles : List Env → List Alert → List Alert × List Notif
  | [], st => (st, [])
  | e :: es, st =>
    let p := alerts_worker_cycle e st
    let q := alerts_worker_cycles es p.1
    (q.1, p.2 ++ q.2)

/-! ### ConversationStateMachine: `handle_add_flow_or_default`
(main.py:262-416) -/

/-- One user's `/add` dialogue state (`user_add_state[user_id]`). -/
structure ConvState where
  step : Nat
  market_url : Option String := none
  outcome : Option String := none
  deriving DecidableEq

/-- Replies sent by the handler, abstracted from their texts. -/
inductive BotReply where
  | promptOutcome
  | promptPrice
  | badNumber
  | badStrikeParse
  | strikeMissing
  | added (market_url outcome : String) (target_price : ℚ)
  deriving DecidableEq

/-- Update of the per-user state map (`user_add_state[u] = v` /
`user_add_state.pop(u)`). -/
def setState (states : Nat → Option ConvState) (u : Nat) (v : Option ConvState) :
    Nat → Option ConvState :=
  fun x => if x = u then v else states x

/-- `handle_add_flow_or_default` (main.py:335-416): the result is the
updated store, the updated state map, and the replies sent.  A message
from a user with no dialogue state is ignored; an unknown step value
falls through silently; reading a missing state key raises `KeyError`. -/
def handle_add_flow_or_default (env : Env) (store : List Alert)
    (states : Nat → Option ConvState) (user_id : Nat) (text : String) :
    Except PyErr (List Alert × (Nat → Option ConvState) × List BotReply) :=
  match states user_id with
  | none => .ok (store, states, [])
  | some st =>
    if st.step = 1 then
      let mu := String.mk (stripWs text.toList)
      .ok (store,
           setState states user_id (some { st with market_url := some mu, step := 2 }),
           [.promptOutcome])
    else if st.step = 2 then
      let oc := String.mk (stripWs text.toList)
      .ok (store,
           setState states user_id (some { st with outcome := some oc, step := 3 }),
           [.promptPrice])
    else if st.step = 3 then
      match pyFloat (stripWs (commaToDot text.toList)) with
      | none => .ok (store, states, [.badNumber])
      | some target =>
        match st.market_url with
        | none => .error .keyError
        | some url =>
          match st.outcome with
          | none => .error .keyError
          | some outcome =>
            match leadingStrike outcome with
            | none => .ok (store, states, [.badStrikeParse])
            | some strike =>
              match strike_exists_in_event env url strike with
              | .error e => .error e
              | .ok false => .ok (store, states, [.strikeMissing])
              | .ok true =>
                .ok (add_alert store user_id url outcome target,
                     setState states user_id none,
                     [.added url outcome target])
    else .ok (store, states, [])

/-! ### Concrete fixtures, used by the closed instantiations below -/

def wMarket : Json :=
  Json.obj [("groupItemTitle", Json.str "82,000"),
            ("clobTokenIds", Json.str "TOKS")]

def wEvent : Json := Json.obj [("markets", Json.arr [wMarket])]

def wJparse : String → Option Json := fun s =>
  if s = "TOKS" then some (Json.arr [Json.str "tokYes", Json.str "tokNo"]) else none

def wEnv : Env :=
  { eventHttp := fun _ => .response 200 (some (Json.obj [("events", Json.arr [wEvent])]))
    priceHttp := fun _ => .response 200 (some (Json.obj [("price", Json.num ((13 : ℚ) / 25))]))
    jparse := wJparse
    sendOk := fun _ => true }

def wEnvDown : Env := { wEnv with eventHttp := fun _ => HttpOutcome.netError }

def wEnvSendFail : Env := { wEnv with sendOk := fun _ => false }

def wAlert : Alert :=
  { id := 1, user_id := 7,
    market_url := "https://polymarket.com/event/btc-dec/86k",
    outcome := "82000 YES", target_price := 50, direction := ">=", active := true }

def wAlertOff : Alert :=
  { id := 2, user_id := 7,
    market_url := "https://polymarket.com/event/btc-dec/86k",
    outcome := "82000 YES", target_price := 50, direction := ">=", active := false }

def wStore : List Alert := [wAlert, wAlertOff]

def wStv : ConvState :=
  { step := 3,
    market_url := some "https://polymarket.com/event/btc-dec/86k",
    outcome := some "82000 YES" }

def wStates : Nat → Option ConvState := fun u =>
  if u = 7 then some wStv else none

/-! ## Lemmas about the store -/

theorem deactivate_alert_no_match (st : List Alert) (u i : Nat)
    (h : ∀ a ∈ st, ¬(a.id = i ∧ a.user_id = u ∧ a.active = true)) :
    deactivate_alert st u i = (st, false) := by
  unfold deactivate_alert
  have h1 : st.map (fun a =>
      if a.id = i ∧ a.user_id = u ∧ a.active = true
      then { a with active := false } else a) = st := by
    conv_rhs => rw [← List.map_id st]
    exact List.map_congr_left fun a ha => by rw [if_neg (h a ha)]; rfl
  have h2 : decide (∃ a ∈ st, a.id = i ∧ a.user_id = u ∧ a.active = true) = false := by
    apply decide_eq_false
    rintro ⟨a, ha, hm⟩
    exact h a ha hm
  rw [h1, h2]

theorem deactivate_alert_fst (st : List Alert) (u i : Nat) :
    (deactivate_alert st u i).1 = st.map (fun a =>
      if a.id = i ∧ a.user_id = u ∧ a.active = true
      then { a with active := false } else a) := rfl

theorem deact_keep_inactive (st : List Alert) (u i : Nat) (b : Alert)
    (hb : b ∈ st) (hact : b.active = false) :
    b ∈ (deactivate_alert st u i).1 := by
  rw [deactivate_alert_fst]
  have hfb : (if b.id = i ∧ b.user_id = u ∧ b.active = true
      then { b with active := false } else b) = b := by
    rw [if_neg]
    rintro ⟨-, -, h⟩
    rw [hact] at h
    exact Bool.noConfusion h
  exact hfb ▸ List.mem_map_of_mem _ hb

theorem deact_keep_ne_id (st : List Alert) (u i : Nat) (b : Alert)
    (hb : b ∈ st) (hne : b.id ≠ i) :
    b ∈ (deactivate_alert st u i).1 := by
  rw [deactivate_alert_fst]
  have hfb : (if b.id = i ∧ b.user_id = u ∧ b.active = true
      then { b with active := false } else b) = b := by
    rw [if_neg]
    rintro ⟨h, -, -⟩
    exact hne h
  exact hfb ▸ List.mem_map_of_mem _ hb

theorem deact_deactivated_mem (st : List Alert) (a : Alert)
    (ha : a ∈ st) (hact : a.active = true) :
    { a with active := false } ∈ (deactivate_alert st a.user_id a.id).1 := by
  rw [deactivate_alert_fst]
  have hfa : (if a.id = a.id ∧ a.user_id = a.user_id ∧ a.active = true
      then { a with active := false } else a) = { a with active := false } :=
    if_pos ⟨rfl, rfl, hact⟩
  exact hfa ▸ List.mem_map_of_mem _ ha

theorem deact_id_map (st : List Alert) (u i : Nat) :
    ((deactivate_alert st u i).1).map (fun a => a.id)
      = st.map (fun a => a.id) := by
  rw [deactivate_alert_fst, List.map_map]
  apply List.map_congr_left
  intro a _
  by_cases hm : a.id = i ∧ a.user_id = u ∧ a.active = true
  · simp only [Function.comp_apply]
    rw [if_pos hm]
  · simp only [Function.comp_apply]
    rw [if_neg hm]

/-- C9: deactivation is idempotent.  When no record of the store matches
the owner, the id and `active = 1`, the call returns `false` and the
store (every record of it) is unchanged; consequently, repeating any
deactivation immediately returns `false` and changes nothing. -/
theorem c9_thm (st : List Alert) (u i : Nat) :
    ((∀ a ∈ st, ¬(a.id = i ∧ a.user_id = u ∧ a.active = true)) →
      deactivate_alert st u i = (st, false)) ∧
    deactivate_alert (deactivate_alert st u i).1 u i
      = ((deactivate_alert st u i).1, false) := by
  constructor
  · exact deactivate_alert_no_match st u i
  · apply deactivate_alert_no_match
    intro a' ha'
    rw [deactivate_alert_fst] at ha'
    obtain ⟨a, _, rfl⟩ := List.mem_map.mp ha'
    by_cases hm : a.id = i ∧ a.user_id = u ∧ a.active = true
    · rw [if_pos hm]
      rintro ⟨_, _, hact⟩
      simp at hact
    · rw [if_neg hm]
      exact hm

theorem c9_witness :
    (∀ a ∈ wStore, ¬(a.id = 2 ∧ a.user_id = 7 ∧ a.active = true)) ∧
    deactivate_alert wStore 7 2 = (wStore, false) :=
  ⟨by decide, (c9_thm wStore 7 2).1 (by decide)⟩

/-- C10: deactivation is owner-scoped and frame-preserving.  With unique
ids: deactivating another owner's alert returns `false` and leaves the
store unchanged; and a successful deactivation rewrites exactly one
record, the matching one, flipping only its `active` flag. -/
theorem c10_thm (st : List Alert) (hnd : (st.map (fun a => a.id)).Nodup) :
    (∀ u a, a ∈ st → a.user_id ≠ u → deactivate_alert st u a.id = (st, false)) ∧
    (∀ u i st', deactivate_alert st u i = (st', true) →
      ∃ l1 a l2, st = l1 ++ a :: l2 ∧ a.id = i ∧ a.user_id = u ∧
        a.active = true ∧ st' = l1 ++ { a with active := false } :: l2) := by
  constructor
  · intro u a ha hne
    apply deactivate_alert_no_match
    rintro r hr ⟨h1, h2, _⟩
    have hra : r = a := List.inj_on_of_nodup_map hnd hr ha h1
    exact hne (hra ▸ h2)
  · intro u i st' hda
    unfold deactivate_alert at hda
    rw [Prod.mk.injEq] at hda
    obtain ⟨hmap, hdec⟩ := hda
    obtain ⟨a, ha, hm⟩ := of_decide_eq_true hdec
    obtain ⟨l1, l2, rfl⟩ := List.append_of_mem ha
    refine ⟨l1, a, l2, rfl, hm.1, hm.2.1, hm.2.2, ?_⟩
    rw [List.map_append, List.map_cons] at hnd
    rw [List.nodup_append] at hnd
    obtain ⟨-, hnd2, hdisj⟩ := hnd
    rw [List.nodup_cons] at hnd2
    have hnotl1 : a.id ∉ l1.map (fun r => r.id) := fun hmem => hdisj hmem (by simp)
    have hnotl2 : a.id ∉ l2.map (fun r => r.id) := hnd2.1
    rw [← hmap, List.map_append, List.map_cons]
    congr 1
    · conv_rhs => rw [← List.map_id l1]
      apply List.map_congr_left
      rintro r hr
      rw [if_neg]
      · rfl
      · rintro ⟨h1, -, -⟩
        have hmem : r.id ∈ List.map (fun r => r.id) l1 :=
          List.mem_map_of_mem (fun r => r.id) hr
        rw [h1, ← hm.1] at hmem
        exact hnotl1 hmem
    · congr 1
      · rw [if_pos hm]
      · conv_rhs => rw [← List.map_id l2]
        apply List.map_congr_left
        rintro r hr
        rw [if_neg]
        · rfl
        · rintro ⟨h1, -, -⟩
          have hmem : r.id ∈ List.map (fun r => r.id) l2 :=
            List.mem_map_of_mem (fun r => r.id) hr
          rw [h1, ← hm.1] at hmem
          exact hnotl2 hmem

theorem c10_witness :
    ((wStore.map (fun a => a.id)).Nodup ∧ wAlert ∈ wStore ∧ wAlert.user_id ≠ 8) ∧
    deactivate_alert wStore 8 wAlert.id = (wStore, false) :=
  ⟨⟨by decide, by decide, by decide⟩,
   (c10_thm wStore (by decide)).1 8 wAlert (by decide) (by decide)⟩

/-! ## Lemmas about the worker's per-alert evaluation -/

theorem should_trigger_iff (d : String) (c t : ℚ) :
    should_trigger d c t = true ↔ ((d = ">=" ∧ c ≥ t) ∨ (d = "<=" ∧ c ≤ t)) := by
  unfold should_trigger
  split_ifs with h1 h2
  · simp only [true_iff]
    exact Or.inl h1
  · simp only [true_iff]
    exact Or.inr h2
  · simp only [Bool.false_eq_true, false_iff]
    rintro (h | h)
    · exact h1 h
    · exact h2 h

/-- When every step `a`-`d` of the cycle succeeds with price `p`, the
per-alert body reduces to the trigger evaluation at `p * 100`. -/
theorem alerts_worker_body_eval (env : Env) (a : Alert) (p : ℚ)
    (h : fetchedPrice env a = some p) :
    alerts_worker_body env a =
      Except.ok (if should_trigger a.direction (p * 100) a.target_price
                 then StepOutcome.trigger (env.sendOk a.user_id)
                 else StepOutcome.noTrigger) := by
  unfold fetchedPrice at h
  unfold alerts_worker_body
  cases h1 : extract_event_slug a.market_url with
  | none => simp only [h1] at h; exact Option.noConfusion h
  | some slug =>
    simp only [h1] at h ⊢
    by_cases h2 : slug = ""
    · rw [if_pos h2] at h; exact Option.noConfusion h
    · rw [if_neg h2] at h
      rw [if_neg h2]
      cases h3 : fetch_event_by_slug (env.eventHttp slug) with
      | error e => simp only [h3] at h; exact Option.noConfusion h
      | ok evo =>
        cases evo with
        | none => simp only [h3] at h; exact Option.noConfusion h
        | some event =>
          simp only [h3] at h ⊢
          cases h4 : jtruthy event with
          | false =>
            rw [if_neg (by rw [h4]; exact Bool.false_ne_true)] at h
            exact Option.noConfusion h
          | true =>
            rw [if_pos h4] at h
            rw [if_pos rfl]
            cases h5 : pick_token_id_for_outcome env.jparse event a.outcome with
            | error e => simp only [h5] at h; exact Option.noConfusion h
            | ok tko =>
              cases tko with
              | none => simp only [h5] at h; exact Option.noConfusion h
              | some token =>
                simp only [h5] at h ⊢
                by_cases h6 : token = ""
                · rw [if_pos h6] at h; exact Option.noConfusion h
                · rw [if_neg h6] at h
                  rw [if_neg h6]
                  cases h7 : fetch_token_price (env.priceHttp token) with
                  | error e => simp only [h7] at h; exact Option.noConfusion h
                  | ok po =>
                    cases po with
                    | none => simp only [h7] at h; exact Option.noConfusion h
                    | some q =>
                      simp only [h7] at h ⊢
                      injection h with h
                      rw [h, apply_ite Except.ok]

/-- C1: with `current_cents = p * 100` for the fetched price `p`, a
processed alert triggers (a notification is attempted) iff
(`direction = ">="` and `current_cents ≥ target_price_cents`) or
(`direction = "<="` and `current_cents ≤ target_price_cents`); in every
other combination no notification is recorded and the store — in
particular the alert's own record — is left unchanged. -/
theorem c1_thm (env : Env) (st : List Alert) (a : Alert) (p : ℚ)
    (h : fetchedPrice env a = some p) :
    (((worker_process_alert env st a).2).isSome = true ↔
      ((a.direction = ">=" ∧ p * 100 ≥ a.target_price) ∨
       (a.direction = "<=" ∧ p * 100 ≤ a.target_price))) ∧
    (¬((a.direction = ">=" ∧ p * 100 ≥ a.target_price) ∨
       (a.direction = "<=" ∧ p * 100 ≤ a.target_price)) →
      worker_process_alert env st a = (st, none)) := by
  have hb := alerts_worker_body_eval env a p h
  unfold worker_process_alert
  rw [hb]
  by_cases hts : should_trigger a.direction (p * 100) a.target_price = true
  · rw [if_pos hts]
    have hcond := (should_trigger_iff a.direction (p * 100) a.target_price).mp hts
    refine ⟨⟨fun _ => hcond, fun _ => by simp⟩, fun hn => absurd hcond hn⟩
  · rw [if_neg hts]
    have hcond : ¬((a.direction = ">=" ∧ p * 100 ≥ a.target_price) ∨
        (a.direction = "<=" ∧ p * 100 ≤ a.target_price)) :=
      fun hc => hts ((should_trigger_iff a.direction (p * 100) a.target_price).mpr hc)
    refine ⟨⟨fun hs => ?_, fun hc => absurd hc hcond⟩, fun _ => rfl⟩
    simp at hs

theorem c1_witness :
    fetchedPrice wEnv wAlert = some ((13 : ℚ) / 25) ∧
    ((((worker_process_alert wEnv wStore wAlert).2).isSome = true ↔
      ((wAlert.direction = ">=" ∧ (13 : ℚ) / 25 * 100 ≥ wAlert.target_price) ∨
       (wAlert.direction = "<=" ∧ (13 : ℚ) / 25 * 100 ≤ wAlert.target_price))) ∧
     (¬((wAlert.direction = ">=" ∧ (13 : ℚ) / 25 * 100 ≥ wAlert.target_price) ∨
        (wAlert.direction = "<=" ∧ (13 : ℚ) / 25 * 100 ≤ wAlert.target_price)) →
       worker_process_alert wEnv wStore wAlert = (wStore, none))) :=
  ⟨rfl, c1_thm wEnv wStore wAlert ((13 : ℚ) / 25) rfl⟩

theorem wAlert_triggers_sendFail :
    alerts_worker_body wEnvSendFail wAlert = .ok (.trigger false) := by
  rw [alerts_worker_body_eval wEnvSendFail wAlert ((13 : ℚ) / 25) rfl]
  have htrig : should_trigger wAlert.direction ((13 : ℚ) / 25 * 100)
      wAlert.target_price = true := by
    unfold should_trigger
    rw [if_pos ⟨rfl, by show (13 : ℚ) / 25 * 100 ≥ 50; norm_num⟩]
  rw [if_pos htrig]
  rfl

/-- C4 counterexample: a failed notification delivery (the send error is
caught at main.py:480-483) does not leave the failing alert's stored
record unchanged — the alert is deactivated at main.py:485 anyway.
Concretely: with the send failing, the body decides
`.trigger false` and processing the alert rewrites its record with
`active := false`, which differs from the stored record. -/
theorem c4_counterexample :
    alerts_worker_body wEnvSendFail wAlert = .ok (.trigger false) ∧
    worker_process_alert wEnvSendFail [wAlert] wAlert
      = ([{ wAlert with active := false }],
         some ⟨wAlert.user_id, wAlert.id, false⟩) ∧
    { wAlert with active := false } ≠ wAlert := by
  refine ⟨wAlert_triggers_sendFail, ?_, ?_⟩
  · unfold worker_process_alert
    rw [wAlert_triggers_sendFail]
    rfl
  · intro h
    exact Bool.noConfusion (congrArg Alert.active h)

/-- C4 (amended): an error raised in steps `a`-`e` of one alert's
evaluation (parsing the reference, resolving the event, selecting the
instrument, fetching the price, evaluating) makes that alert's
processing a no-op on the cycle state — its stored record unchanged —
and the remaining snapshot alerts are processed exactly as the fold
over them.  A notification-delivery failure is likewise caught and the
remaining alerts are still processed from the post-step state, but it
does not leave the record unchanged: the triggered alert is still
deactivated (at-most-once delivery). -/
theorem c4_thm (env : Env) (st l1 l2 : List Alert) (a : Alert)
    (hsnap : get_all_active_alerts st = l1 ++ a :: l2) :
    (∀ e, alerts_worker_body env a = .error e →
      (∀ q : List Alert × List Notif, worker_cycle_step env q a = q) ∧
      alerts_worker_cycle env st
        = (l1 ++ l2).foldl (worker_cycle_step env) (st, [])) ∧
    (alerts_worker_body env a = .ok (.trigger false) →
      (∀ q : List Alert × List Notif,
        worker_cycle_step env q a
          = ((deactivate_alert q.1 a.user_id a.id).1,
             q.2 ++ [⟨a.user_id, a.id, false⟩])) ∧
      (∀ q : List Alert × List Notif, a ∈ q.1 → a.active = true →
        { a with active := false } ∈ (worker_cycle_step env q a).1) ∧
      alerts_worker_cycle env st
        = l2.foldl (worker_cycle_step env)
            (worker_cycle_step env
              (l1.foldl (worker_cycle_step env) (st, [])) a)) := by
  constructor
  · intro e herr
    have hid : ∀ q : List Alert × List Notif, worker_cycle_step env q a = q := by
      intro q
      unfold worker_cycle_step worker_process_alert
      rw [herr]
      simp
    refine ⟨hid, ?_⟩
    unfold alerts_worker_cycle
    rw [hsnap, List.foldl_append, List.foldl_cons, hid, ← List.foldl_append]
  · intro htrig
    have hstep : ∀ q : List Alert × List Notif,
        worker_cycle_step env q a
          = ((deactivate_alert q.1 a.user_id a.id).1,
             q.2 ++ [⟨a.user_id, a.id, false⟩]) := by
      intro q
      unfold worker_cycle_step worker_process_alert
      rw [htrig]
      rfl
    refine ⟨hstep, ?_, ?_⟩
    · intro q hmem hact
      rw [hstep q]
      exact deact_deactivated_mem q.1 a hmem hact
    · unfold alerts_worker_cycle
      rw [hsnap, List.foldl_append, List.foldl_cons]

theorem c4_witness :
    (get_all_active_alerts [wAlert] = [] ++ wAlert :: [] ∧
     alerts_worker_body wEnvDown wAlert = .error .requestError ∧
     alerts_worker_body wEnvSendFail wAlert = .ok (.trigger false)) ∧
    alerts_worker_cycle wEnvDown [wAlert]
      = ([] ++ []).foldl (worker_cycle_step wEnvDown) ([wAlert], []) ∧
    alerts_worker_cycle wEnvSendFail [wAlert]
      = [].foldl (worker_cycle_step wEnvSendFail)
          (worker_cycle_step wEnvSendFail
            ([].foldl (worker_cycle_step wEnvSendFail) ([wAlert], [])) wAlert) :=
  ⟨⟨rfl, rfl, wAlert_triggers_sendFail⟩,
   ((c4_thm wEnvDown [wAlert] [] [] wAlert rfl).1 .requestError rfl).2,
   ((c4_thm wEnvSendFail [wAlert] [] [] wAlert rfl).2 wAlert_triggers_sendFail).2.2⟩

/-! ## Lemmas about splitting and stripping (for `extract_event_slug`) -/

theorem splitP_ne_nil (p : Char → Bool) (l : List Char) : splitP p l ≠ [] := by
  induction l with
  | nil => simp [splitP]
  | cons c cs ih =>
    unfold splitP
    cases hc : p c
    · cases hs : splitP p cs <;> simp [hs]
    · simp

theorem splitP_headD_ne_nil (p : Char → Bool) (c : Char) (cs : List Char)
    (h : p c = false) : (splitP p (c :: cs)).headD [] ≠ [] := by
  unfold splitP
  rw [h]
  cases hs : splitP p cs <;> simp

theorem splitP_getLast?_ne_nil (p : Char → Bool) (l : List Char) :
    l ≠ [] → (∀ x, l.getLast? = some x → p x = false) →
    (splitP p l).getLast? ≠ some [] := by
  induction l with
  | nil => intro h; exact absurd rfl h
  | cons c cs ih =>
    intro _ hlast
    cases cs with
    | nil =>
      have hc : p c = false := hlast c rfl
      unfold splitP
      rw [hc]
      simp [splitP]
    | cons c2 cs2 =>
      have hlast' : ∀ x, (c2 :: cs2).getLast? = some x → p x = false := by
        intro x hx
        exact hlast x (by rw [List.getLast?_cons_cons]; exact hx)
      have ih' := ih (by simp) hlast'
      unfold splitP
      cases hc : p c
      · cases hs : splitP p (c2 :: cs2) with
        | nil => exact absurd hs (splitP_ne_nil p (c2 :: cs2))
        | cons s ss =>
          rw [hs] at ih'
          simp only [Bool.false_eq_true, if_false]
          cases ss with
          | nil => simp
          | cons s2 ss2 =>
            rw [List.getLast?_cons_cons]
            simpa using ih'
      · cases hs : splitP p (c2 :: cs2) with
        | nil => exact absurd hs (splitP_ne_nil p (c2 :: cs2))
        | cons s ss =>
          rw [hs] at ih'
          rw [if_pos rfl, List.getLast?_cons_cons]
          simpa using ih'

theorem dropLead_cases (p : Char → Bool) (l : List Char) :
    dropLead p l = [] ∨ ∃ c cs, dropLead p l = c :: cs ∧ p c = false := by
  induction l with
  | nil => exact Or.inl rfl
  | cons c cs ih =>
    unfold dropLead
    cases hc : p c
    · exact Or.inr ⟨c, cs, by simp, hc⟩
    · simpa using ih

theorem dropLead_is_drop (p : Char → Bool) (l : List Char) :
    ∃ t, l = t ++ dropLead p l := by
  induction l with
  | nil => exact ⟨[], rfl⟩
  | cons c cs ih =>
    unfold dropLead
    cases hc : p c
    · exact ⟨[], by simp⟩
    · obtain ⟨t, ht⟩ := ih
      exact ⟨c :: t, by simpa using ht⟩

theorem stripAllP_getLast? (p : Char → Bool) (l : List Char) (x : Char)
    (h : (stripAllP p l).getLast? = some x) : p x = false := by
  unfold stripAllP at h
  rw [List.getLast?_reverse] at h
  rcases dropLead_cases p (dropLead p l).reverse with h0 | ⟨c, cs, hcs, hc⟩
  · rw [h0] at h; exact absurd h (by simp)
  · rw [hcs] at h
    simp only [List.head?_cons, Option.some.injEq] at h
    exact h ▸ hc

theorem stripAllP_head (p : Char → Bool) (l : List Char) (c : Char) (cs : List Char)
    (h : stripAllP p l = c :: cs) : p c = false := by
  obtain ⟨t, ht⟩ := dropLead_is_drop p (dropLead p l).reverse
  have hs1 : dropLead p l = stripAllP p l ++ t.reverse := by
    unfold stripAllP
    calc dropLead p l = (dropLead p l).reverse.reverse := by rw [List.reverse_reverse]
    _ = (t ++ dropLead p (dropLead p l).reverse).reverse := by rw [← ht]
    _ = (dropLead p (dropLead p l).reverse).reverse ++ t.reverse := by
        rw [List.reverse_append]
  rcases dropLead_cases p l with h0 | ⟨c', cs', hcs', hc'⟩
  · rw [h0, h] at hs1
    exact absurd hs1.symm (by simp)
  · rw [hcs', h] at hs1
    have : c' = c := by
      have := congrArg (fun l => l.headD ' ') hs1
      simpa using this
    exact this ▸ hc'

/-- The filtered (non-empty) segments of a stripped-and-split path agree
with the raw segments on the two facts `extract_event_slug` branches on:
having at least two segments, and the head segment. -/
theorem pathParts_filter_agree (p : Char → Bool) (l : List Char) :
    ((2 ≤ ((splitP p (stripAllP p l)).filter (fun s => !s.isEmpty)).length) ↔
      2 ≤ (splitP p (stripAllP p l)).length) ∧
    ((splitP p (stripAllP p l)).filter (fun s => !s.isEmpty)).headD []
      = (splitP p (stripAllP p l)).headD [] := by
  cases hq : stripAllP p l with
  | nil =>
    simp [splitP]
  | cons c cs =>
    have hc : p c = false := stripAllP_head p l c cs hq
    cases hp : splitP p (c :: cs) with
    | nil => exact absurd hp (splitP_ne_nil p (c :: cs))
    | cons s ss =>
      have hs : s ≠ [] := by
        have := splitP_headD_ne_nil p c cs hc
        rw [hp] at this
        simpa using this
      have hfilt : (s :: ss).filter (fun s => !s.isEmpty)
          = s :: ss.filter (fun s => !s.isEmpty) := by
        rw [List.filter_cons]
        simp [hs]
      constructor
      · constructor
        · intro h2
          calc 2 ≤ ((s :: ss).filter (fun s => !s.isEmpty)).length := h2
          _ ≤ (s :: ss).length := List.length_filter_le _ _
        · intro h2
          cases ss with
          | nil => simp at h2
          | cons s2 ss2 =>
            have hlast : (splitP p (c :: cs)).getLast? ≠ some [] := by
              apply splitP_getLast?_ne_nil p (c :: cs) (by simp)
              intro x hx
              apply stripAllP_getLast? p l
              rw [hq]
              exact hx
            rw [hp, List.getLast?_cons_cons] at hlast
            have hy : (s2 :: ss2).getLast? = some ((s2 :: ss2).getLast (by simp)) :=
              List.getLast?_eq_getLast _ _
            have hyne : (s2 :: ss2).getLast (by simp) ≠ [] := by
              intro hnil
              rw [hy, hnil] at hlast
              exact hlast rfl
            have hymem : (s2 :: ss2).getLast (by simp)
                ∈ (s2 :: ss2).filter (fun s => !s.isEmpty) :=
              List.mem_filter.mpr ⟨List.getLast_mem _, by simpa using hyne⟩
            rw [hfilt]
            have : 1 ≤ ((s2 :: ss2).filter (fun s => !s.isEmpty)).length :=
              List.length_pos.mpr (List.ne_nil_of_mem hymem)
            simp only [List.length_cons]
            omega
      · rw [hfilt]
        simp

/-- C5: `extract_event_slug` never raises (it is a total function of the
URL); on a URL whose parse raises `ValueError` it returns `None`; and on
a parsed path it returns the second path segment exactly when the path
has at least two non-empty segments and the first is the literal
`event`, returning `None` otherwise.  (On a path whose segments are all
non-empty — the common case — the second segment is also the second
non-empty segment.) -/
theorem c5_thm (url : String) :
    (pyUrlparsePath url = none → extract_event_slug url = none) ∧
    (∀ path, pyUrlparsePath url = some path →
      ((2 ≤ ((pathParts path).filter (fun s => !s.isEmpty)).length ∧
        ((pathParts path).filter (fun s => !s.isEmpty)).headD [] = "event".toList) →
        extract_event_slug url = some (String.mk ((pathParts path).getD 1 []))) ∧
      (¬(2 ≤ ((pathParts path).filter (fun s => !s.isEmpty)).length ∧
        ((pathParts path).filter (fun s => !s.isEmpty)).headD [] = "event".toList) →
        extract_event_slug url = none)) := by
  constructor
  · intro h
    unfold extract_event_slug
    rw [h]
  · intro path hp
    have key := pathParts_filter_agree (fun c => c == '/') path.toList
    have hiff : (2 ≤ ((pathParts path).filter (fun s => !s.isEmpty)).length ∧
        ((pathParts path).filter (fun s => !s.isEmpty)).headD [] = "event".toList) ↔
        (2 ≤ (pathParts path).length ∧ (pathParts path).headD [] = "event".toList) := by
      unfold pathParts
      exact and_congr key.1 (by rw [key.2])
    constructor
    · intro hcond
      unfold extract_event_slug
      rw [hp]
      simp only [if_pos (hiff.mp hcond)]
    · intro hcond
      unfold extract_event_slug
      rw [hp]
      simp only [if_neg (fun hc => hcond (hiff.mpr hc))]

theorem c5_witness :
    pyUrlparsePath "https://polymarket.com/event/abc/def?tid=1" = some "/event/abc/def" ∧
    (2 ≤ ((pathParts "/event/abc/def").filter (fun s => !s.isEmpty)).length ∧
      ((pathParts "/event/abc/def").filter (fun s => !s.isEmpty)).headD [] = "event".toList) ∧
    extract_event_slug "https://polymarket.com/event/abc/def?tid=1"
      = some (String.mk ((pathParts "/event/abc/def").getD 1 [])) :=
  ⟨rfl, by decide,
   ((c5_thm "https://polymarket.com/event/abc/def?tid=1").2 "/event/abc/def" rfl).1
     (by decide)⟩

/-! ## Lemmas about instrument selection -/

theorem findStrikeMarket_sound (s : Int) (ms : List Json) (m : Json)
    (h : findStrikeMarket s ms = .ok (some m)) :
    m ∈ ms ∧ normTitle m = .ok (some s) := by
  induction ms with
  | nil => exact absurd h (by simp [findStrikeMarket])
  | cons x xs ih =>
    unfold findStrikeMarket at h
    cases hn : normTitle x with
    | error e =>
      simp only [hn] at h
      exact Except.noConfusion h
    | ok o =>
      cases o with
      | none =>
        simp only [hn] at h
        obtain ⟨hm, ht⟩ := ih h
        exact ⟨List.mem_cons_of_mem x hm, ht⟩
      | some v =>
        simp only [hn] at h
        by_cases hv : v = s
        · rw [if_pos hv] at h
          injection h with h1
          injection h1 with h2
          subst h2
          rw [hv] at hn
          exact ⟨List.mem_cons_self x xs, hn⟩
        · rw [if_neg hv] at h
          obtain ⟨hm, ht⟩ := ih h
          exact ⟨List.mem_cons_of_mem x hm, ht⟩

theorem eventMarkets_obj (kvs : List (String × Json)) :
    ∃ v, eventMarkets (Json.obj kvs) = .ok v := ⟨_, rfl⟩

/-- C2: `pick_token_id_for_outcome` returns an instrument only for an
exact normalized-strike match (never a fallback): any returned token
comes from a market whose normalized label equals the parsed leading
strike.  A missing leading integer, no exactly-matching market, or a
missing/unparsable/short instrument-id pair all yield `None`; on
success the YES instrument is `ids[0]` and the NO instrument is
`ids[1]`; and the side defaults to YES when the side token is omitted
or not in the NO vocabulary. -/
theorem c2_thm (jp : String → Option Json) (event : Json) (spec : String) :
    (∀ t, pick_token_id_for_outcome jp event spec = .ok (some t) →
      ∃ s ms m, (parseOutcome spec).1 = some s ∧
        eventMarkets event = .ok (Json.arr ms) ∧ m ∈ ms ∧
        normTitle m = .ok (some s)) ∧
    (jIsObj event = true → (parseOutcome spec).1 = none →
      pick_token_id_for_outcome jp event spec = .ok none) ∧
    (∀ ms s, eventMarkets event = .ok (Json.arr ms) →
      (parseOutcome spec).1 = some s → findStrikeMarket s ms = .ok none →
      pick_token_id_for_outcome jp event spec = .ok none) ∧
    (∀ ms s m, eventMarkets event = .ok (Json.arr ms) →
      (parseOutcome spec).1 = some s → findStrikeMarket s ms = .ok (some m) →
      tokenPair jp m = .ok none →
      pick_token_id_for_outcome jp event spec = .ok none) ∧
    (∀ ms s m y n, eventMarkets event = .ok (Json.arr ms) →
      (parseOutcome spec).1 = some s → findStrikeMarket s ms = .ok (some m) →
      tokenPair jp m = .ok (some (y, n)) →
      pick_token_id_for_outcome jp event spec
        = .ok (some (pyStr (if (parseOutcome spec).2 then y else n)))) ∧
    ((pySplitWs (stripWs spec.toList)).length ≤ 1 → (parseOutcome spec).2 = true) ∧
    (∀ t1 t2 rest, pySplitWs (stripWs spec.toList) = t1 :: t2 :: rest →
      ¬(String.mk (pyLower t2) = "no" ∨ String.mk (pyLower t2) = "нет" ∨
        String.mk (pyLower t2) = "нету") →
      (parseOutcome spec).2 = true) := by
  refine ⟨?_, ?_, ?_, ?_, ?_, ?_, ?_⟩
  · -- soundness: a returned token implies an exact match
    intro t h
    unfold pick_token_id_for_outcome at h
    cases hEM : eventMarkets event with
    | error e =>
      simp only [hEM] at h
      exact Except.noConfusion h
    | ok v =>
      cases v with
      | arr ms =>
        simp only [hEM] at h
        by_cases he : ms.isEmpty
        · rw [if_pos he] at h
          injection h with h1
          exact Option.noConfusion h1
        · rw [if_neg he] at h
          cases hstrike : (parseOutcome spec).1 with
          | none =>
            simp only [hstrike] at h
            injection h with h1
            exact Option.noConfusion h1
          | some s =>
            simp only [hstrike] at h
            cases hF : findStrikeMarket s ms with
            | error e =>
              simp only [hF] at h
              exact Except.noConfusion h
            | ok mo =>
              cases mo with
              | none =>
                simp only [hF] at h
                injection h with h1
                exact Option.noConfusion h1
              | some m =>
                obtain ⟨hm, ht⟩ := findStrikeMarket_sound s ms m hF
                exact ⟨s, ms, m, rfl, rfl, hm, ht⟩
      | null => simp only [hEM] at h; injection h with h1; exact Option.noConfusion h1
      | bool b => simp only [hEM] at h; injection h with h1; exact Option.noConfusion h1
      | num q => simp only [hEM] at h; injection h with h1; exact Option.noConfusion h1
      | str s => simp only [hEM] at h; injection h with h1; exact Option.noConfusion h1
      | obj kvs => simp only [hEM] at h; injection h with h1; exact Option.noConfusion h1
  · -- missing leading integer
    intro hobj hstrike
    cases event with
    | obj kvs =>
      obtain ⟨v, hEM⟩ := eventMarkets_obj kvs
      unfold pick_token_id_for_outcome
      cases v with
      | arr ms =>
        simp only [hEM]
        by_cases he : ms.isEmpty
        · rw [if_pos he]
        · rw [if_neg he]
          simp only [hstrike]
      | null => simp only [hEM]
      | bool b => simp only [hEM]
      | num q => simp only [hEM]
      | str s => simp only [hEM]
      | obj kvs2 => simp only [hEM]
    | null => exact absurd hobj (by simp [jIsObj])
    | bool b => exact absurd hobj (by simp [jIsObj])
    | num q => exact absurd hobj (by simp [jIsObj])
    | str s => exact absurd hobj (by simp [jIsObj])
    | arr xs => exact absurd hobj (by simp [jIsObj])
  · -- no exact match
    intro ms s hEM hstrike hF
    unfold pick_token_id_for_outcome
    simp only [hEM]
    by_cases he : ms.isEmpty
    · rw [if_pos he]
    · rw [if_neg he]
      simp only [hstrike, hF]
  · -- bad instrument-id pair
    intro ms s m hEM hstrike hF hT
    unfold pick_token_id_for_outcome
    simp only [hEM]
    by_cases he : ms.isEmpty
    · exfalso
      rw [List.isEmpty_iff] at he
      subst he
      simp [findStrikeMarket] at hF
    · rw [if_neg he]
      simp only [hstrike, hF, hT]
  · -- success: index 0 for YES, index 1 for NO
    intro ms s m y n hEM hstrike hF hT
    unfold pick_token_id_for_outcome
    simp only [hEM]
    by_cases he : ms.isEmpty
    · exfalso
      rw [List.isEmpty_iff] at he
      subst he
      simp [findStrikeMarket] at hF
    · rw [if_neg he]
      simp only [hstrike, hF, hT]
  · -- YES is the default side when the side token is omitted
    intro hlen
    unfold parseOutcome
    cases hsp : pySplitWs (stripWs spec.toList) with
    | nil => rfl
    | cons t1 ts =>
      cases ts with
      | nil => rfl
      | cons t2 rest =>
        rw [hsp] at hlen
        simp at hlen
  · -- YES is the default side when the side token is unrecognized
    intro t1 t2 rest hsp hno
    unfold parseOutcome
    simp only [hsp]
    have h1 : (String.mk (pyLower t2) == "no") = false := by
      cases hb : String.mk (pyLower t2) == "no"
      · rfl
      · exact absurd (Or.inl (by simpa using hb)) hno
    have h2 : (String.mk (pyLower t2) == "нет") = false := by
      cases hb : String.mk (pyLower t2) == "нет"
      · rfl
      · exact absurd (Or.inr (Or.inl (by simpa using hb))) hno
    have h3 : (String.mk (pyLower t2) == "нету") = false := by
      cases hb : String.mk (pyLower t2) == "нету"
      · rfl
      · exact absurd (Or.inr (Or.inr (by simpa using hb))) hno
    rw [h1, h2, h3]
    rfl

theorem c2_witness :
    (eventMarkets wEvent = .ok (Json.arr [wMarket]) ∧
     (parseOutcome "82000 no").1 = some 82000 ∧
     findStrikeMarket 82000 [wMarket] = .ok (some wMarket) ∧
     tokenPair wJparse wMarket = .ok (some (Json.str "tokYes", Json.str "tokNo"))) ∧
    pick_token_id_for_outcome wJparse wEvent "82000 no"
      = .ok (some (pyStr (if (parseOutcome "82000 no").2
                          then Json.str "tokYes" else Json.str "tokNo"))) :=
  ⟨⟨rfl, rfl, rfl, rfl⟩,
   (c2_thm wJparse wEvent "82000 no").2.2.2.2.1 [wMarket] 82000 wMarket
     (Json.str "tokYes") (Json.str "tokNo") rfl rfl rfl rfl⟩

/-! ## Lemmas about strike-label normalization -/

theorem strikeLoop_sound (s : Int) (ms : List Json)
    (h : strikeLoop s ms = .ok true) :
    ∃ m ∈ ms, normTitle m = .ok (some s) := by
  induction ms with
  | nil =>
    exfalso
    unfold strikeLoop at h
    injection h with h1
    exact Bool.noConfusion h1
  | cons x xs ih =>
    unfold strikeLoop at h
    cases hn : normTitle x with
    | error e =>
      simp only [hn] at h
      exact Except.noConfusion h
    | ok o =>
      cases o with
      | none =>
        simp only [hn] at h
        obtain ⟨m, hm, ht⟩ := ih h
        exact ⟨m, List.mem_cons_of_mem x hm, ht⟩
      | some v =>
        simp only [hn] at h
        by_cases hv : v = s
        · exact ⟨x, List.mem_cons_self x xs, by rw [hn, hv]⟩
        · rw [if_neg hv] at h
          obtain ⟨m, hm, ht⟩ := ih h
          exact ⟨m, List.mem_cons_of_mem x hm, ht⟩

theorem dropLead_id_of_none (p : Char → Bool) (l : List Char)
    (h : ∀ c ∈ l, p c = false) : dropLead p l = l := by
  cases l with
  | nil => rfl
  | cons c cs =>
    unfold dropLead
    rw [h c (List.mem_cons_self c cs)]
    simp

theorem stripAllP_id_of_none (p : Char → Bool) (l : List Char)
    (h : ∀ c ∈ l, p c = false) : stripAllP p l = l := by
  unfold stripAllP
  rw [dropLead_id_of_none p l h]
  rw [dropLead_id_of_none p l.reverse (fun c hc => h c (List.mem_reverse.mp hc))]
  exact List.reverse_reverse l

theorem digit_not_ws (c : Char) (h : c.isDigit = true) : c.isWhitespace = false := by
  cases hw : c.isWhitespace
  · rfl
  · exfalso
    simp only [Char.isWhitespace, Bool.or_eq_true, decide_eq_true_eq] at hw
    rcases hw with ((h1 | h1) | h1) | h1 <;> (subst h1; exact absurd h (by decide))

theorem intDigitsAux_all_digits (l : List Char) (h : ∀ c ∈ l, c.isDigit = true) :
    ∀ acc, intDigitsAux acc l
      = some (l.foldl (fun n c => n * 10 + digitVal c) acc) := by
  induction l with
  | nil => intro acc; rfl
  | cons c cs ih =>
    intro acc
    unfold intDigitsAux
    rw [h c (List.mem_cons_self c cs)]
    simp only [if_true]
    rw [ih (fun x hx => h x (List.mem_cons_of_mem c hx))]
    rfl

theorem pyInt_all_digits (l : List Char) (hne : l ≠ [])
    (h : ∀ c ∈ l, c.isDigit = true) : pyInt l = some ((natVal l : Int)) := by
  have hstrip : stripWs l = l :=
    stripAllP_id_of_none _ l (fun c hc => digit_not_ws c (h c hc))
  cases l with
  | nil => exact absurd rfl hne
  | cons c cs =>
    have hc := h c (List.mem_cons_self c cs)
    have hplus : c ≠ '+' := by
      intro heq; rw [heq] at hc; exact absurd hc (by decide)
    have hminus : c ≠ '-' := by
      intro heq; rw [heq] at hc; exact absurd hc (by decide)
    unfold pyInt
    rw [hstrip]
    have hrun : intDigits (c :: cs) = some (natVal (c :: cs)) := by
      show (if c.isDigit = true then intDigitsAux (digitVal c) cs else none)
        = some (natVal (c :: cs))
      rw [hc]
      simp only [if_true]
      rw [intDigitsAux_all_digits cs (fun x hx => h x (List.mem_cons_of_mem c hx))]
      unfold natVal
      simp [digitVal]
    split
    · next heq => exact absurd (List.cons.injEq .. ▸ heq).1 hplus
    · next heq => exact absurd (List.cons.injEq .. ▸ heq).1 hminus
    · rw [hrun]; rfl

/-- C7 counterexample: the code strips only comma separators.  A label
with a different non-digit grouping separator, `"78.000"`, does not
normalize to the integer `78000` (it fails integer parsing altogether)
and does not match a requested strike of `78000`, while `"78,000"`
does. -/
theorem c7_counterexample :
    normalizeLabel "78.000" = none ∧
    strikeLoop 78000 [Json.obj [("groupItemTitle", Json.str "78.000")]] = .ok false ∧
    normalizeLabel "78,000" = some 78000 :=
  ⟨rfl, rfl, rfl⟩

/-- C7 (amended): normalization strips comma grouping separators — a
label of digits and commas with at least one digit normalizes to the
integer formed by its digits (so `"78,000"` gives `78000`) — and a
label that is not an integer after comma removal never matches any
requested strike, in the `strike_exists_in_event` scan or in
`pick_token_id_for_outcome`'s market search: any match implies the
label normalized to exactly the requested strike. -/
theorem c7_thm :
    (∀ s : String, (∀ c ∈ s.toList, c.isDigit = true ∨ c = ',') →
      (∃ c ∈ s.toList, c.isDigit = true) →
      normalizeLabel s = some ((natVal (s.toList.filter Char.isDigit) : Int))) ∧
    (∀ strike ms, strikeLoop strike ms = .ok true →
      ∃ m ∈ ms, normTitle m = .ok (some strike)) ∧
    (∀ strike ms m, findStrikeMarket strike ms = .ok (some m) →
      m ∈ ms ∧ normTitle m = .ok (some strike)) := by
  refine ⟨?_, fun strike ms h => strikeLoop_sound strike ms h,
    fun s ms m h => findStrikeMarket_sound s ms m h⟩
  intro s hall hex
  unfold normalizeLabel removeCommas
  have hfc : s.toList.filter (fun c => !(c == ','))
      = s.toList.filter Char.isDigit := by
    apply List.filter_congr
    intro c hc
    rcases hall c hc with hd | hcomma
    · have : (c == ',') = false := by
        cases hb : c == ','
        · rfl
        · exfalso
          have : c = ',' := by simpa using hb
          rw [this] at hd
          exact absurd hd (by decide)
      rw [this, hd]
      rfl
    · subst hcomma
      simp
  rw [hfc]
  obtain ⟨c, hc, hcd⟩ := hex
  have hmem : c ∈ s.toList.filter Char.isDigit :=
    List.mem_filter.mpr ⟨hc, hcd⟩
  have hne : s.toList.filter Char.isDigit ≠ [] := List.ne_nil_of_mem hmem
  have hds : ∀ x ∈ s.toList.filter Char.isDigit, x.isDigit = true :=
    fun x hx => (List.mem_filter.mp hx).2
  have hstrip : stripWs (s.toList.filter Char.isDigit)
      = s.toList.filter Char.isDigit :=
    stripAllP_id_of_none _ _ (fun c hc => digit_not_ws c (hds c hc))
  rw [hstrip]
  exact pyInt_all_digits _ hne hds

theorem c7_witness :
    ((∀ c ∈ "78,000".toList, c.isDigit = true ∨ c = ',') ∧
     (∃ c ∈ "78,000".toList, c.isDigit = true)) ∧
    normalizeLabel "78,000"
      = some ((natVal ("78,000".toList.filter Char.isDigit) : Int)) :=
  ⟨⟨by decide, by decide⟩, c7_thm.1 "78,000" (by decide) (by decide)⟩

/-! ## The fetch-event contract -/

/-- C6 counterexample: on a non-success (500) response carrying a
decodable body, `fetch_event_by_slug` raises `HTTPStatusError`
(`raise_for_status()`) instead of returning the `NotFound` value `None`;
a network failure likewise surfaces as a raised `RequestError`, not a
returned `TransientError` value. -/
theorem c6_counterexample :
    fetch_event_by_slug (HttpOutcome.response 500 (some (Json.arr [Json.obj []])))
      = .error .httpStatusError ∧
    fetch_event_by_slug HttpOutcome.netError = .error .requestError ∧
    fetch_event_by_slug (HttpOutcome.response 500 (some (Json.arr [Json.obj []])))
      ≠ .ok none := by
  refine ⟨rfl, rfl, ?_⟩
  intro h
  exact Except.noConfusion h

/-- C6 (amended): `fetch_event_by_slug` returns `None` (NotFound) only
for a success response whose result set is empty (falsy); a non-2xx
response raises `HTTPStatusError` and a network/timeout failure raises
`RequestError` — exceptions that the worker's per-alert boundary
catches, leaving the retry decision to the caller, rather than returned
values. -/
theorem c6_thm :
    fetch_event_by_slug HttpOutcome.netError = .error .requestError ∧
    (∀ status body, (status < 200 ∨ 300 ≤ status) →
      fetch_event_by_slug (HttpOutcome.response status body)
        = .error .httpStatusError) ∧
    (∀ status data, 200 ≤ status → status < 300 →
      jtruthy (eventsField data) = false →
      fetch_event_by_slug (HttpOutcome.response status (some data)) = .ok none) := by
  refine ⟨rfl, ?_, ?_⟩
  · intro status body hbad
    simp only [fetch_event_by_slug]
    rw [if_pos hbad]
  · intro status data h1 h2 hfalsy
    simp only [fetch_event_by_slug]
    rw [if_neg (by omega)]
    simp only [hfalsy, Bool.false_eq_true, if_false]

theorem c6_witness :
    ((404 : Nat) < 200 ∨ 300 ≤ 404) ∧
    fetch_event_by_slug (HttpOutcome.response 404 (some (Json.arr [Json.obj []])))
      = .error .httpStatusError ∧
    ((200 : Nat) ≤ 200 ∧ (200 : Nat) < 300 ∧
      jtruthy (eventsField (Json.arr [])) = false) ∧
    fetch_event_by_slug (HttpOutcome.response 200 (some (Json.arr []))) = .ok none :=
  ⟨by decide, c6_thm.2.1 404 (some (Json.arr [Json.obj []])) (by decide),
   ⟨by decide, by decide, rfl⟩,
   c6_thm.2.2 200 (Json.arr []) (by decide) (by decide) rfl⟩

/-! ## Lemmas about the polling cycle and the store -/

theorem worker_cycle_step_cases (env : Env) (p : List Alert × List Notif)
    (a : Alert) :
    worker_cycle_step env p a = p ∨
    ∃ d, alerts_worker_body env a = .ok (.trigger d) ∧
      worker_cycle_step env p a
        = ((deactivate_alert p.1 a.user_id a.id).1,
           p.2 ++ [⟨a.user_id, a.id, d⟩]) := by
  unfold worker_cycle_step worker_process_alert
  cases hb : alerts_worker_body env a with
  | error e => left; simp
  | ok o =>
    cases o with
    | trigger d => right; exact ⟨d, rfl, by simp⟩
    | skip => left; simp
    | noTrigger => left; simp

theorem cycle_fold_fst_id_map (env : Env) (l : List Alert)
    (p : List Alert × List Notif) :
    ((l.foldl (worker_cycle_step env) p).1).map (fun a => a.id)
      = (p.1).map (fun a => a.id) := by
  induction l generalizing p with
  | nil => rfl
  | cons x xs ih =>
    rw [List.foldl_cons, ih]
    rcases worker_cycle_step_cases env p x with h | ⟨d, -, h⟩
    · rw [h]
    · rw [h]
      exact deact_id_map p.1 x.user_id x.id

theorem cycle_fold_keep_inactive (env : Env) (l : List Alert)
    (p : List Alert × List Notif) (b : Alert)
    (hb : b ∈ p.1) (hact : b.active = false) :
    b ∈ (l.foldl (worker_cycle_step env) p).1 := by
  induction l generalizing p with
  | nil => exact hb
  | cons x xs ih =>
    rw [List.foldl_cons]
    apply ih
    rcases worker_cycle_step_cases env p x with h | ⟨d, -, h⟩
    · rw [h]; exact hb
    · rw [h]
      exact deact_keep_inactive p.1 x.user_id x.id b hb hact

theorem cycle_fold_keep_ne (env : Env) (l : List Alert)
    (p : List Alert × List Notif) (b : Alert)
    (hb : b ∈ p.1) (hne : ∀ x ∈ l, x.id ≠ b.id) :
    b ∈ (l.foldl (worker_cycle_step env) p).1 := by
  induction l generalizing p with
  | nil => exact hb
  | cons x xs ih =>
    rw [List.foldl_cons]
    apply ih _ _ (fun y hy => hne y (List.mem_cons_of_mem x hy))
    rcases worker_cycle_step_cases env p x with h | ⟨d, -, h⟩
    · rw [h]; exact hb
    · rw [h]
      exact deact_keep_ne_id p.1 x.user_id x.id b hb
        (fun heq => hne x (List.mem_cons_self x xs) heq.symm)

theorem cycle_fold_notifs (env : Env) (l : List Alert)
    (p : List Alert × List Notif) (n : Notif)
    (hn : n ∈ (l.foldl (worker_cycle_step env) p).2) :
    n ∈ p.2 ∨ ∃ x ∈ l, n.alert_id = x.id := by
  induction l generalizing p with
  | nil => exact Or.inl hn
  | cons x xs ih =>
    rw [List.foldl_cons] at hn
    rcases ih _ hn with h | ⟨y, hy, hid⟩
    · rcases worker_cycle_step_cases env p x with hc | ⟨d, -, hc⟩
      · rw [hc] at h
        exact Or.inl h
      · rw [hc] at h
        rcases List.mem_append.mp h with h1 | h1
        · exact Or.inl h1
        · right
          refine ⟨x, List.mem_cons_self x xs, ?_⟩
          have hn1 : n = ⟨x.user_id, x.id, d⟩ := by simpa using h1
          rw [hn1]
    · exact Or.inr ⟨y, List.mem_cons_of_mem x hy, hid⟩

theorem cycle_keep_inactive (env : Env) (st : List Alert) (b : Alert)
    (hb : b ∈ st) (hact : b.active = false) :
    b ∈ (alerts_worker_cycle env st).1 :=
  cycle_fold_keep_inactive env (get_all_active_alerts st) (st, []) b hb hact

theorem cycle_id_map (env : Env) (st : List Alert) :
    ((alerts_worker_cycle env st).1).map (fun a => a.id)
      = st.map (fun a => a.id) :=
  cycle_fold_fst_id_map env (get_all_active_alerts st) (st, [])

/-- An inactive record survives every cycle untouched and is never the
subject of a notification (with unique ids). -/
theorem cycles_inactive (b : Alert) (hact : b.active = false) :
    ∀ (envs : List Env) (st : List Alert), b ∈ st →
      (st.map (fun a => a.id)).Nodup →
      b ∈ (alerts_worker_cycles envs st).1 ∧
      ∀ n ∈ (alerts_worker_cycles envs st).2, n.alert_id ≠ b.id := by
  intro envs
  induction envs with
  | nil =>
    intro st hb _
    refine ⟨hb, ?_⟩
    intro n hn
    simp [alerts_worker_cycles] at hn
  | cons e es ih =>
    intro st hb hnd
    have h1 : b ∈ (alerts_worker_cycle e st).1 := cycle_keep_inactive e st b hb hact
    have hnd' : (((alerts_worker_cycle e st).1).map (fun a => a.id)).Nodup := by
      rw [cycle_id_map]
      exact hnd
    obtain ⟨h2, h3⟩ := ih (alerts_worker_cycle e st).1 h1 hnd'
    constructor
    · simpa [alerts_worker_cycles] using h2
    · intro n hn
      simp only [alerts_worker_cycles] at hn
      rcases List.mem_append.mp hn with hn1 | hn2
      · rcases cycle_fold_notifs e (get_all_active_alerts st) (st, []) n hn1
          with h | ⟨x, hx, hid⟩
        · simp at h
        · obtain ⟨hxs, hxact⟩ := List.mem_filter.mp hx
          intro heq
          have hxb : x = b :=
            List.inj_on_of_nodup_map hnd hxs hb (by rw [← hid, heq])
          rw [hxb, hact] at hxact
          exact Bool.noConfusion hxact
      · exact h3 n hn2

/-- C3: in any cycle, a triggered alert (with unique ids) ends the cycle
deactivated — its record rewritten with `active = false` — regardless of
the notification delivery outcome (the body's `.trigger d` carries
either outcome); and once a record is inactive it survives any number of
subsequent cycles unchanged, is in no later snapshot, and is never
re-notified. -/
theorem c3_thm (st : List Alert) (hnd : (st.map (fun a => a.id)).Nodup) :
    (∀ env a d, a ∈ st → a.active = true →
      alerts_worker_body env a = .ok (.trigger d) →
      { a with active := false } ∈ (alerts_worker_cycle env st).1 ∧
      (((alerts_worker_cycle env st).1).map (fun r => r.id)).Nodup) ∧
    (∀ b, b ∈ st → b.active = false → ∀ envs,
      b ∈ (alerts_worker_cycles envs st).1 ∧
      b ∉ get_all_active_alerts (alerts_worker_cycles envs st).1 ∧
      ∀ n ∈ (alerts_worker_cycles envs st).2, n.alert_id ≠ b.id) := by
  constructor
  · intro env a d ha hact htrig
    have hsnap : a ∈ get_all_active_alerts st := List.mem_filter.mpr ⟨ha, hact⟩
    obtain ⟨l1, l2, hsplit⟩ := List.append_of_mem hsnap
    have hsnd : ((get_all_active_alerts st).map (fun r => r.id)).Nodup :=
      hnd.sublist ((List.filter_sublist st).map _)
    rw [hsplit, List.map_append, List.map_cons, List.nodup_append] at hsnd
    obtain ⟨-, hnd2, hdisj⟩ := hsnd
    rw [List.nodup_cons] at hnd2
    have hl1 : ∀ x ∈ l1, x.id ≠ a.id := by
      intro x hx heq
      have hmem1 : x.id ∈ l1.map (fun r => r.id) := List.mem_map_of_mem _ hx
      exact hdisj hmem1 (by rw [heq]; exact List.mem_cons_self _ _)
    have hl2 : ∀ x ∈ l2, x.id ≠ a.id := by
      intro x hx heq
      have hmem2 : x.id ∈ l2.map (fun r => r.id) := List.mem_map_of_mem _ hx
      rw [heq] at hmem2
      exact hnd2.1 hmem2
    have ha1 : a ∈ (List.foldl (worker_cycle_step env) (st, ([] : List Notif)) l1).1 :=
      cycle_fold_keep_ne env l1 (st, []) a ha hl1
    have hstep : worker_cycle_step env
        (List.foldl (worker_cycle_step env) (st, ([] : List Notif)) l1) a
        = ((deactivate_alert
             (List.foldl (worker_cycle_step env) (st, ([] : List Notif)) l1).1
             a.user_id a.id).1,
           (List.foldl (worker_cycle_step env) (st, ([] : List Notif)) l1).2
             ++ [⟨a.user_id, a.id, d⟩]) := by
      unfold worker_cycle_step worker_process_alert
      rw [htrig]
      rfl
    have ha2 : { a with active := false } ∈ (deactivate_alert
        (List.foldl (worker_cycle_step env) (st, ([] : List Notif)) l1).1
        a.user_id a.id).1 :=
      deact_deactivated_mem _ a ha1 hact
    unfold alerts_worker_cycle
    rw [hsplit, List.foldl_append, List.foldl_cons, hstep]
    constructor
    · exact cycle_fold_keep_inactive env l2 _ _ ha2 rfl
    · rw [cycle_fold_fst_id_map]
      show ((deactivate_alert _ a.user_id a.id).1).map (fun r => r.id) |>.Nodup
      rw [deact_id_map]
      rw [cycle_fold_fst_id_map]
      exact hnd
  · intro b hb hact envs
    obtain ⟨h1, h3⟩ := cycles_inactive b hact envs st hb hnd
    refine ⟨h1, ?_, h3⟩
    intro hmem
    have hba := (List.mem_filter.mp hmem).2
    rw [hact] at hba
    exact Bool.noConfusion hba

theorem wAlert_triggers : alerts_worker_body wEnv wAlert = .ok (.trigger true) := by
  rw [alerts_worker_body_eval wEnv wAlert ((13 : ℚ) / 25) rfl]
  have htrig : should_trigger wAlert.direction ((13 : ℚ) / 25 * 100)
      wAlert.target_price = true := by
    unfold should_trigger
    rw [if_pos ⟨rfl, by show (13 : ℚ) / 25 * 100 ≥ 50; norm_num⟩]
  rw [if_pos htrig]
  rfl

theorem c3_witness :
    ((wStore.map (fun a => a.id)).Nodup ∧ wAlert ∈ wStore ∧ wAlert.active = true ∧
     alerts_worker_body wEnv wAlert = .ok (.trigger true) ∧
     wAlertOff ∈ wStore ∧ wAlertOff.active = false) ∧
    ({ wAlert with active := false } ∈ (alerts_worker_cycle wEnv wStore).1 ∧
     (((alerts_worker_cycle wEnv wStore).1).map (fun r => r.id)).Nodup) ∧
    (wAlertOff ∈ (alerts_worker_cycles [wEnv] wStore).1 ∧
     wAlertOff ∉ get_all_active_alerts (alerts_worker_cycles [wEnv] wStore).1 ∧
     ∀ n ∈ (alerts_worker_cycles [wEnv] wStore).2, n.alert_id ≠ wAlertOff.id) :=
  ⟨⟨by decide, by decide, rfl, wAlert_triggers, by decide, rfl⟩,
   (c3_thm wStore (by decide)).1 wEnv wAlert true (by decide) rfl wAlert_triggers,
   (c3_thm wStore (by decide)).2 wAlertOff (by decide) rfl [wEnv]⟩

/-! ## The AWAIT_PRICE step of the conversation -/

/-- The price step of the handler in normal form, for a user at step 3
with both stored fields present. -/
theorem handle_step3 (env : Env) (store : List Alert)
    (states : Nat → Option ConvState) (u : Nat) (text : String)
    (stv : ConvState) (url spec : String)
    (hstates : states u = some stv) (hstep : stv.step = 3)
    (hurl : stv.market_url = some url) (hspec : stv.outcome = some spec) :
    handle_add_flow_or_default env store states u text =
      match pyFloat (stripWs (commaToDot text.toList)) with
      | none => .ok (store, states, [.badNumber])
      | some target =>
        match leadingStrike spec with
        | none => .ok (store, states, [.badStrikeParse])
        | some strike =>
          match strike_exists_in_event env url strike with
          | .error e => .error e
          | .ok false => .ok (store, states, [.strikeMissing])
          | .ok true => .ok (add_alert store u url spec target,
                             setState states u none, [.added url spec target]) := by
  unfold handle_add_flow_or_default
  simp only [hstates]
  rw [if_neg (by rw [hstep]; omega), if_neg (by rw [hstep]; omega), if_pos hstep]
  cases hpf : pyFloat (stripWs (commaToDot text.toList)) with
  | none => simp only [hpf]
  | some target => simp only [hpf, hurl, hspec]

/-- C8: at the AWAIT_PRICE step, the input is parsed as a decimal with
both `.` and `,` accepted as the decimal separator; a parse failure, a
missing leading integer in the stored outcome, or a failed strike check
each leave the store and the whole conversation-state map unchanged (the
user stays at step 3 with the stored fields intact) and persist nothing;
only on full success is an alert appended — carrying the entered target
price, direction `">="` (AT_LEAST) and `active` — and the user's state
cleared. -/
theorem c8_thm (env : Env) (store : List Alert)
    (states : Nat → Option ConvState) (u : Nat) (text : String)
    (stv : ConvState) (url spec : String)
    (hstates : states u = some stv) (hstep : stv.step = 3)
    (hurl : stv.market_url = some url) (hspec : stv.outcome = some spec) :
    (pyFloat (stripWs (commaToDot text.toList)) = none →
      handle_add_flow_or_default env store states u text
        = .ok (store, states, [.badNumber])) ∧
    (∀ p, pyFloat (stripWs (commaToDot text.toList)) = some p →
      leadingStrike spec = none →
      handle_add_flow_or_default env store states u text
        = .ok (store, states, [.badStrikeParse])) ∧
    (∀ p s, pyFloat (stripWs (commaToDot text.toList)) = some p →
      leadingStrike spec = some s →
      strike_exists_in_event env url s = .ok false →
      handle_add_flow_or_default env store states u text
        = .ok (store, states, [.strikeMissing])) ∧
    (∀ p s, pyFloat (stripWs (commaToDot text.toList)) = some p →
      leadingStrike spec = some s →
      strike_exists_in_event env url s = .ok true →
      handle_add_flow_or_default env store states u text
        = .ok (add_alert store u url spec p, setState states u none,
               [.added url spec p])) ∧
    (∀ p : ℚ, (add_alert store u url spec p).getLast? = some
      { id := next_alert_id store, user_id := u, market_url := url,
        outcome := spec, target_price := p, direction := ">=", active := true }) := by
  have hnf := handle_step3 env store states u text stv url spec
    hstates hstep hurl hspec
  refine ⟨?_, ?_, ?_, ?_, ?_⟩
  · intro hpf
    rw [hnf, hpf]
  · intro p hpf hlead
    rw [hnf]
    simp only [hpf, hlead]
  · intro p s hpf hlead hse
    rw [hnf]
    simp only [hpf, hlead, hse]
  · intro p s hpf hlead hse
    rw [hnf]
    simp only [hpf, hlead, hse]
  · intro p
    unfold add_alert
    exact List.getLast?_concat _

theorem pyFloat48 : pyFloat (stripWs (commaToDot "48".toList)) = some 48 := by
  decide

theorem c8_witness :
    (wStates 7 = some wStv ∧ wStv.step = 3 ∧
     wStv.market_url = some "https://polymarket.com/event/btc-dec/86k" ∧
     wStv.outcome = some "82000 YES" ∧
     pyFloat (stripWs (commaToDot "48".toList)) = some 48 ∧
     leadingStrike "82000 YES" = some 82000 ∧
     strike_exists_in_event wEnv "https://polymarket.com/event/btc-dec/86k" 82000
       = .ok true) ∧
    handle_add_flow_or_default wEnv [] wStates 7 "48"
      = .ok (add_alert [] 7 "https://polymarket.com/event/btc-dec/86k" "82000 YES" 48,
             setState wStates 7 none,
             [.added "https://polymarket.com/event/btc-dec/86k" "82000 YES" 48]) :=
  ⟨⟨rfl, rfl, rfl, rfl, pyFloat48, rfl, rfl⟩,
   (c8_thm wEnv [] wStates 7 "48" wStv
      "https://polymarket.com/event/btc-dec/86k" "82000 YES"
      rfl rfl rfl rfl).2.2.2.1 48 82000 pyFloat48 rfl rfl⟩

end PolyBot
